import Mathlib

/-!
# A shallow embedding of `modarchive_dl.py`

This file embeds the data model and the operations of the `modarchive-dl`
repository (single source file `src/modarchive_dl.py`) as executable Lean
definitions and proves properties of them:

* string helpers modelling the Python `str` methods the script uses
  (`strip`, `isalnum`, `splitlines`, `split(":", 1)`, substring `in`);
* `sanitize_filename`;
* a document model (a tree of tags and text nodes) with the BeautifulSoup
  traversals used by `scrape_metadata` (`find_all`, `find_next_sibling`,
  `find_next`, `get_text`, direct-text `find`), and `scrape_metadata` itself;
* the title-resolution step of `main`;
* a filesystem model together with the `csv` module's reading/writing
  (delimiter, minimal quoting, `\r\n` line terminator) and on top of it
  `ensure_csv_exists` and `update_metadata_csv`.

Fallible Python code (an expression that can raise) is modelled with
`Except String` / an error component; machine-level effects are explicit
state passing over an association-list filesystem.
-/

namespace ModarchiveDl

/-! ## Python string primitives -/

/-- The characters Python's `str.strip()` removes / `str.isspace()` accepts:
the Unicode whitespace code points. -/
def pyIsSpace (c : Char) : Bool :=
  let n := c.toNat
  (0x09 ≤ n && n ≤ 0x0D) || n == 0x20 || (0x1C ≤ n && n ≤ 0x1F) ||
  n == 0x85 || n == 0xA0 || n == 0x1680 || (0x2000 ≤ n && n ≤ 0x200A) ||
  n == 0x2028 || n == 0x2029 || n == 0x202F || n == 0x205F || n == 0x3000

/-- Python `str.isalnum()` on a single character.  `Char.isAlphanum` covers the
ASCII range; the remaining disjuncts cover the Latin-1 supplement exactly per
the Unicode database (`ª ² ³ µ ¹ º ¼ ½ ¾`, and the letters `À`–`ÿ` except the
operators `×` and `÷`).  Code points above U+00FF (which occur in no input
considered in this development) are mapped to `false`. -/
def pyIsAlnum (c : Char) : Bool :=
  c.isAlphanum ||
  (let n := c.toNat
   n == 0xAA || n == 0xB2 || n == 0xB3 || n == 0xB5 || n == 0xB9 || n == 0xBA ||
   n == 0xBC || n == 0xBD || n == 0xBE ||
   (0xC0 ≤ n && n ≤ 0xFF && !(n == 0xD7) && !(n == 0xF7)))

/-- `str.strip()` on a character list: drop whitespace from both ends. -/
def stripList (l : List Char) : List Char :=
  ((l.dropWhile pyIsSpace).reverse.dropWhile pyIsSpace).reverse

/-- Python `s.strip()`. -/
def pyStrip (s : String) : String := ⟨stripList s.data⟩

/-- The filter of `sanitize_filename`: `c.isalnum() or c in " _-"`.
(For a single character `c`, Python's substring test `c in " _-"` is
membership in `{' ', '_', '-'}`.) -/
def keepChar (c : Char) : Bool := pyIsAlnum c || c == ' ' || c == '_' || c == '-'

/-- `sanitize_filename` (src/modarchive_dl.py, lines 62-63):
`"".join(c for c in s if c.isalnum() or c in " _-").strip()`. -/
def sanitize_filename (s : String) : String := pyStrip ⟨s.data.filter keepChar⟩

/-- The character class `[A-Za-z0-9 _-]` named by the specification
(ASCII letters, ASCII digits, space, underscore, hyphen). -/
def asciiAllowed (c : Char) : Bool := c.isAlphanum || c == ' ' || c == '_' || c == '-'

/-! ### Helper lemmas about `stripList` -/

theorem mem_of_mem_dropWhile {α : Type} {p : α → Bool} {c : α} :
    ∀ {l : List α}, c ∈ l.dropWhile p → c ∈ l := by
  intro l
  induction l with
  | nil => intro h; simp [List.dropWhile] at h
  | cons a t ih =>
    intro h
    by_cases hp : p a
    · simp [List.dropWhile, hp] at h
      exact List.mem_cons_of_mem a (ih h)
    · simpa [List.dropWhile, hp] using h

theorem mem_of_mem_stripList {c : Char} {l : List Char} (h : c ∈ stripList l) :
    c ∈ l := by
  unfold stripList at h
  rw [List.mem_reverse] at h
  have h2 := mem_of_mem_dropWhile h
  rw [List.mem_reverse] at h2
  exact mem_of_mem_dropWhile h2

theorem head?_dropWhile_false {α : Type} {p : α → Bool} :
    ∀ {l : List α} {c : α}, (l.dropWhile p).head? = some c → p c = false := by
  intro l
  induction l with
  | nil => intro c h; simp [List.dropWhile] at h
  | cons a t ih =>
    intro c h
    by_cases hp : p a
    · exact ih (by simpa [List.dropWhile, hp] using h)
    · simp [List.dropWhile, hp] at h
      subst h
      exact Bool.not_eq_true _ ▸ (by simpa using hp)

theorem dropWhile_eq_self_of_head {α : Type} {p : α → Bool} {l : List α}
    (h : ∀ c, l.head? = some c → p c = false) : l.dropWhile p = l := by
  cases l with
  | nil => rfl
  | cons a t => simp [List.dropWhile, h a rfl]

theorem getLast?_dropWhile {α : Type} {p : α → Bool} :
    ∀ {l : List α}, l.dropWhile p ≠ [] → (l.dropWhile p).getLast? = l.getLast? := by
  intro l
  induction l with
  | nil => intro h; simp [List.dropWhile] at h
  | cons a t ih =>
    intro h
    by_cases hp : p a
    · have hne : t.dropWhile p ≠ [] := by simpa [List.dropWhile, hp] using h
      have ht : t ≠ [] := by
        intro he; subst he; simp [List.dropWhile] at hne
      rw [List.dropWhile_cons_of_pos hp, ih hne]
      cases t with
      | nil => exact absurd rfl ht
      | cons b t2 => rw [List.getLast?_cons_cons]
    · rw [List.dropWhile_cons_of_neg hp]

theorem head?_stripList_false {l : List Char} {c : Char}
    (h : (stripList l).head? = some c) : pyIsSpace c = false := by
  unfold stripList at h
  rw [List.head?_reverse] at h
  by_cases hne : (l.dropWhile pyIsSpace).reverse.dropWhile pyIsSpace = []
  · rw [hne] at h; simp at h
  · rw [getLast?_dropWhile hne, List.getLast?_reverse] at h
    exact head?_dropWhile_false h

theorem getLast?_stripList_false {l : List Char} {c : Char}
    (h : (stripList l).getLast? = some c) : pyIsSpace c = false := by
  unfold stripList at h
  rw [← List.head?_reverse, List.reverse_reverse] at h
  exact head?_dropWhile_false h

theorem stripList_idem (l : List Char) : stripList (stripList l) = stripList l := by
  have h1 : (stripList l).dropWhile pyIsSpace = stripList l :=
    dropWhile_eq_self_of_head (fun c hc => head?_stripList_false hc)
  have h2 : (stripList l).reverse.dropWhile pyIsSpace = (stripList l).reverse := by
    refine dropWhile_eq_self_of_head (fun c hc => ?_)
    rw [List.head?_reverse] at hc
    exact getLast?_stripList_false hc
  show ((((stripList l).dropWhile pyIsSpace).reverse).dropWhile pyIsSpace).reverse
      = stripList l
  rw [h1, h2, List.reverse_reverse]

theorem pyIsAlnum_ascii {c : Char} (h : pyIsAlnum c = true) (hlt : c.toNat < 128) :
    c.isAlphanum = true := by
  unfold pyIsAlnum at h
  simp only [Bool.or_eq_true, Bool.and_eq_true, beq_iff_eq, Bool.not_eq_true',
    beq_eq_false_iff_ne, decide_eq_true_eq] at h
  rcases h with h | h
  · exact h
  · exfalso
    omega

theorem keepChar_ascii {c : Char} (hlt : c.toNat < 128) (h : keepChar c = true) :
    asciiAllowed c = true := by
  unfold keepChar at h
  unfold asciiAllowed
  simp only [Bool.or_eq_true] at h ⊢
  rcases h with ((hA | hs) | hu) | hh
  · exact Or.inl (Or.inl (Or.inl (pyIsAlnum_ascii hA hlt)))
  · exact Or.inl (Or.inl (Or.inr hs))
  · exact Or.inl (Or.inr hu)
  · exact Or.inr hh

theorem sanitize_all_keepChar (s : String) :
    ∀ c ∈ (sanitize_filename s).data, keepChar c = true := by
  intro c hc
  have h1 : c ∈ (s.data.filter keepChar) := mem_of_mem_stripList hc
  exact List.of_mem_filter h1

/-! ## C2 and C10: `sanitize_filename` -/

/-- C2 (counterexample): the claim "`sanitize_filename(s)` contains only
characters from `[A-Za-z0-9 _-]`" fails at the input `"é"`: Python's
Unicode-aware `isalnum` retains the letter `é`, which is outside the set. -/
theorem sanitize_nonascii_cex :
    sanitize_filename "é" = "é" ∧ "é".data.all asciiAllowed = false := by
  constructor
  · rfl
  · decide

/-- C2 (amended): for every string `s`, `sanitize_filename s` contains only
characters accepted by Python's `isalnum` or in `" _-"` (the code's filter);
it has no leading or trailing whitespace; and when `s` is pure ASCII the
output does lie in `[A-Za-z0-9 _-]`. -/
theorem sanitize_charset_amended (s : String) :
    ((sanitize_filename s).data.all keepChar = true) ∧
    (∀ c, (sanitize_filename s).data.head? = some c → pyIsSpace c = false) ∧
    (∀ c, (sanitize_filename s).data.getLast? = some c → pyIsSpace c = false) ∧
    (s.data.all (fun c => decide (c.toNat < 128)) = true →
      (sanitize_filename s).data.all asciiAllowed = true) := by
  refine ⟨?_, ?_, ?_, ?_⟩
  · exact List.all_eq_true.mpr (sanitize_all_keepChar s)
  · intro c hc
    exact head?_stripList_false hc
  · intro c hc
    exact getLast?_stripList_false hc
  · intro hascii
    refine List.all_eq_true.mpr (fun c hc => ?_)
    have hkeep : keepChar c = true := sanitize_all_keepChar s c hc
    have hmem : c ∈ s.data := by
      have h1 : c ∈ (s.data.filter keepChar) := mem_of_mem_stripList hc
      exact List.mem_of_mem_filter h1
    have hlt : c.toNat < 128 := by
      have := List.all_eq_true.mp hascii c hmem
      simpa using this
    exact keepChar_ascii hlt hkeep

/-- Closed instance of `sanitize_charset_amended` at the ASCII input
`" a/b_c! "`, discharging the ASCII hypothesis concretely. -/
theorem sanitize_charset_amended_witness :
    ((" a/b_c! ".data.all (fun c => decide (c.toNat < 128))) = true) ∧
    (sanitize_filename " a/b_c! ").data.all asciiAllowed = true :=
  ⟨by decide, (sanitize_charset_amended " a/b_c! ").2.2.2 (by decide)⟩

/-- C10: `sanitize_filename` is idempotent. -/
theorem sanitize_filename_idempotent (s : String) :
    sanitize_filename (sanitize_filename s) = sanitize_filename s := by
  have hall : ∀ c ∈ (sanitize_filename s).data, keepChar c = true :=
    sanitize_all_keepChar s
  show pyStrip ⟨(sanitize_filename s).data.filter keepChar⟩ = sanitize_filename s
  rw [List.filter_eq_self.mpr hall]
  show pyStrip (sanitize_filename s) = sanitize_filename s
  have : (sanitize_filename s).data = stripList (⟨s.data.filter keepChar⟩ : String).data := rfl
  unfold pyStrip
  rw [this, stripList_idem]
  rfl

/-! ## The document model

`fetch_html` parses the page into a BeautifulSoup tree.  We model the parsed
document as a tree of element nodes (a tag name plus children) and text nodes
(BeautifulSoup's `NavigableString`s).  `NodeL` is the children list, spelled
out as its own inductive so that all traversals are plain structural
recursions. -/

mutual
inductive Node where
  | text : String → Node
  | elem : String → NodeL → Node
inductive NodeL where
  | nil : NodeL
  | cons : Node → NodeL → NodeL
end

def NodeL.toList : NodeL → List Node
  | .nil => []
  | .cons n t => n :: t.toList

/-- Children list from an ordinary list, for writing documents down. -/
def nodesOf : List Node → NodeL
  | [] => .nil
  | n :: t => .cons n (nodesOf t)

/-- An element node with its children given as a list. -/
def el (tag : String) (kids : List Node) : Node := Node.elem tag (nodesOf kids)

/-- A text node. -/
def tx (s : String) : Node := Node.text s

/-- All nodes of a children list in document (preorder) order, each node
followed by its descendants. -/
def flattenL : NodeL → List Node
  | .nil => []
  | .cons (.text s) t => .text s :: flattenL t
  | .cons (.elem tag kids) t => .elem tag kids :: (flattenL kids ++ flattenL t)

/-- An element of the document together with the navigation context
BeautifulSoup keeps for it: the siblings after it (for `find_next_sibling`)
and every node after it in document order, its own descendants first
(for `find_next`). -/
structure Ctx where
  node : Node
  sibs : List Node
  after : List Node

/-- The contexts of all elements of a children list, in document order;
`aft` is the document-order flattening of everything after the list. -/
def ctxL : NodeL → List Node → List Ctx
  | .nil, _ => []
  | .cons (.text _) t, aft => ctxL t aft
  | .cons (.elem tag kids) t, aft =>
    ⟨.elem tag kids, t.toList, flattenL kids ++ (flattenL t ++ aft)⟩ ::
      (ctxL kids (flattenL t ++ aft) ++ ctxL t aft)

/-- All element contexts of a document, in document order — the search space
of `soup.find_all` / `soup.find`. -/
def allCtxs : Node → List Ctx
  | .text _ => []
  | .elem _ kids => ctxL kids []

/-- Does the node match a tag name filter (text nodes never do)? -/
def isTagged (tag : String) : Node → Bool
  | .text _ => false
  | .elem t _ => t == tag

/-- `soup.find_all([...tags])`: all elements whose tag is in the list,
in document order. -/
def elementsByTags (soup : Node) (tags : List String) : List Ctx :=
  (allCtxs soup).filter fun c =>
    match c.node with
    | .elem t _ => tags.contains t
    | .text _ => false

/-- `soup.find(tag)`: the first element with the tag, in document order. -/
def findTag (soup : Node) (tag : String) : Option Node :=
  ((allCtxs soup).find? fun c => isTagged tag c.node).map (·.node)

/-- `element.find_next_sibling(tag)`. -/
def findSib (c : Ctx) (tag : String) : Option Node :=
  c.sibs.find? (isTagged tag)

/-- `element.find_next(tag)`: the first later element (document order,
descendants of the element included) with the tag. -/
def findNextIn (c : Ctx) (tag : String) : Option Node :=
  c.after.find? (isTagged tag)

/-- The strings of all descendant text nodes of a children list, in
document order. -/
def getTextsL : NodeL → List String
  | .nil => []
  | .cons (.text s) t => s :: getTextsL t
  | .cons (.elem _ kids) t => getTextsL kids ++ getTextsL t

/-- The descendant strings of one node. -/
def getTextsN : Node → List String
  | .text s => [s]
  | .elem _ kids => getTextsL kids

/-- `element.text` / `element.get_text()`: the descendant strings joined. -/
def getText (n : Node) : String := String.join (getTextsN n)

/-- `element.get_text(separator=sep)`. -/
def getTextSep (sep : String) (n : Node) : String :=
  String.intercalate sep (getTextsN n)

/-- Python truthiness of a BeautifulSoup node: a tag is truthy iff it has
children (`Tag.__len__` is `len(self.contents)`), a string iff nonempty. -/
def truthyNode : Node → Bool
  | .text s => !(s == "")
  | .elem _ .nil => false
  | .elem _ (.cons _ _) => true

/-- Python `a or b` over two optional nodes (`None` and empty tags
are falsy). -/
def pyOrN (a b : Option Node) : Option Node :=
  match a with
  | some n => if truthyNode n then some n else b
  | none => b

/-- `element.find(text=True, recursive=False)`: the first direct child that
is a text node. -/
def firstTextL : NodeL → Option String
  | .nil => none
  | .cons (.text s) _ => some s
  | .cons (.elem _ _) t => firstTextL t

def directText : Node → Option String
  | .text _ => none
  | .elem _ kids => firstTextL kids

/-- `element.findAll('li')`: all descendant `li` elements. -/
def liOf : Node → List Node
  | .text _ => []
  | .elem _ kids => (flattenL kids).filter (isTagged "li")

/-! ## More Python string primitives used by the scraper -/

/-- The line boundaries of Python `str.splitlines`. -/
def isLineBreak (c : Char) : Bool :=
  let n := c.toNat
  n == 0x0A || n == 0x0D || n == 0x0B || n == 0x0C || (0x1C ≤ n && n ≤ 0x1E) ||
  n == 0x85 || n == 0x2028 || n == 0x2029

def pySLChars : List Char → List (List Char)
  | [] => []
  | '\r' :: '\n' :: rest => [] :: pySLChars rest
  | c :: rest =>
    if isLineBreak c then [] :: pySLChars rest
    else
      match pySLChars rest with
      | [] => [[c]]
      | l :: ls => (c :: l) :: ls

/-- Python `s.splitlines()`. -/
def pySplitlines (s : String) : List String := (pySLChars s.data).map (fun l => ⟨l⟩)

def afterColonChars : List Char → List Char
  | [] => []
  | ':' :: rest => rest
  | _ :: rest => afterColonChars rest

/-- `line.split(":", 1)[1]`: everything after the first colon.  (In
`scrape_metadata` this is only evaluated on lines that contain one of the
labels, each of which ends in a colon, so index `[1]` always exists.) -/
def afterColon (s : String) : String := ⟨afterColonChars s.data⟩

/-- Python substring test `needle in hay`. -/
def containsSub (needle : List Char) : List Char → Bool
  | [] => needle.isEmpty
  | c :: t => needle.isPrefixOf (c :: t) || containsSub needle t

def strContains (line lbl : String) : Bool := containsSub lbl.data line.data

/-! ## `scrape_metadata` -/

/-- The result dictionary of `scrape_metadata`, with its fixed keys. -/
structure ScrapedMeta where
  mod_id : String
  md5 : String
  format : String
  channels : String
  genre : String
  artist : String
deriving DecidableEq

/-- `{k: "Unknown" for k in [...]}`. -/
def unknownMeta : ScrapedMeta :=
  ⟨"Unknown", "Unknown", "Unknown", "Unknown", "Unknown", "Unknown"⟩

/-- One iteration of the info-section line loop: the `elif` chain matching
the labels by substring containment, in listed order, assigning the text
after the line's first colon, stripped. -/
def applyInfoLine (m : ScrapedMeta) (line : String) : ScrapedMeta :=
  if strContains line "Mod Archive ID:" then { m with mod_id := pyStrip (afterColon line) }
  else if strContains line "MD5:" then { m with md5 := pyStrip (afterColon line) }
  else if strContains line "Format:" then { m with format := pyStrip (afterColon line) }
  else if strContains line "Channels:" then { m with channels := pyStrip (afterColon line) }
  else if strContains line "Genre:" then { m with genre := pyStrip (afterColon line) }
  else m

def infoTags : List String := ["h6", "h3", "h2", "h4"]

/-- `header.text.strip() == "Info"`. -/
def isInfoHeader (c : Ctx) : Bool := pyStrip (getText c.node) == "Info"

/-- The first heading (levels 6,3,2,4, document order) whose whole text strips
to `"Info"` — the loop with `break` in `scrape_metadata`. -/
def infoHeaderCtx (soup : Node) : Option Ctx :=
  (elementsByTags soup infoTags).find? isInfoHeader

/-- `header.find_next_sibling("ul") or header.find_next("p")` for the first
`Info` heading (`None` when there is no such heading). -/
def infoSectionOf (soup : Node) : Option Node :=
  match infoHeaderCtx soup with
  | none => none
  | some c => pyOrN (findSib c "ul") (findNextIn c "p")

/-- `info_section.get_text(separator="\n")` split into lines. -/
def infoLinesOf (sec : Node) : List String := pySplitlines (getTextSep "\n" sec)

/-- The metadata after the info-section part of `scrape_metadata`
(`if info_section:` is a truthiness test). -/
def infoMeta (soup : Node) : ScrapedMeta :=
  match infoSectionOf soup with
  | some sec =>
    if truthyNode sec then (infoLinesOf sec).foldl applyInfoLine unknownMeta
    else unknownMeta
  | none => unknownMeta

def attrErrorMsg : String := "AttributeError: NoneType object has no attribute strip"

/-- One iteration of the artist loop.  `header.find(text=True,
recursive=False)` is `None` for a level-2 heading with no direct text node,
and `.strip()` on `None` raises `AttributeError`.  A matching heading whose
next sibling list is absent leaves the accumulated value; one with a sibling
list overwrites it (the loop has no `break`). -/
def artistStep (acc : Option String) (c : Ctx) : Except String (Option String) :=
  match directText c.node with
  | none => .error attrErrorMsg
  | some t =>
    if pyStrip t == "Registered Artist(s):" then
      match findSib c "ul" with
      | none => .ok acc
      | some ul =>
        .ok (some (String.intercalate ", " ((liOf ul).map fun li => pyStrip (getText li))))
    else .ok acc

/-- The artist loop over all level-2 headings. -/
def artistFold (soup : Node) : Except String (Option String) :=
  (elementsByTags soup ["h2"]).foldlM artistStep none

/-- `scrape_metadata` (src/modarchive_dl.py, lines 16-47).  The initial
`soup.find("##", text="Info")` of the source binds an unused variable to
`None` (no tag is named `"##"`) and is omitted. -/
def scrape_metadata (soup : Node) : Except String ScrapedMeta :=
  match artistFold soup with
  | .error e => .error e
  | .ok none => .ok (infoMeta soup)
  | .ok (some a) => .ok { infoMeta soup with artist := a }

/-! ## Title resolution in `main` -/

def nameErrorMsg : String := "NameError: name mod_id is not defined"

/-- The title-resolution step of `main` (src/modarchive_dl.py, lines 94-95):
`title_header = soup.find("h1") or soup.find("h2")` followed by
`title = (title_header.find(text=True, recursive=False).strip() if
title_header else f"module_{mod_id}") if args.name is None else args.name`.
The fallback f-string references the undefined name `mod_id` (`main` only
has `args.mod_id`), so reaching it raises `NameError`; and when the heading
has no direct text node, `.strip()` is called on `None`. -/
def resolveTitle (nameArg : Option String) (soup : Node) : Except String String :=
  match nameArg with
  | some n => .ok n
  | none =>
    match pyOrN (findTag soup "h1") (findTag soup "h2") with
    | some h =>
      if truthyNode h then
        match directText h with
        | some t => .ok (pyStrip t)
        | none => .error attrErrorMsg
      else .error nameErrorMsg
    | none => .error nameErrorMsg

/-! ### Helper lemmas for the scraper -/

/-- A run of the artist loop over headings that all have a direct text node
not matching `"Registered Artist(s):"` leaves the accumulator unchanged. -/
theorem artistFold_nomatch :
    ∀ (l : List Ctx) (acc : Option String),
      (∀ c ∈ l, ∃ t, directText c.node = some t ∧ pyStrip t ≠ "Registered Artist(s):") →
      List.foldlM artistStep acc l = Except.ok acc
  | [], _, _ => rfl
  | c :: t, acc, h => by
    obtain ⟨s, hs, hne⟩ := h c (List.mem_cons_self c t)
    have hbeq : (pyStrip s == "Registered Artist(s):") = false := by
      simpa using hne
    have hstep : artistStep acc c = .ok acc := by
      simp [artistStep, hs, hbeq]
    rw [List.foldlM_cons, hstep]
    exact artistFold_nomatch t acc (fun d hd => h d (List.mem_cons_of_mem c hd))

/-! ## C3: the synthesized title fallback -/

/-- C3 (code bug): with no name override and a document containing neither a
level-1 nor a level-2 heading, the title step evaluates
`f"module_{mod_id}"`, but `mod_id` is an undefined name inside `main` (the
argument is `args.mod_id`), so the run fails with `NameError` instead of
producing `"module_<module_id>"`. -/
theorem resolve_title_fallback_name_error (soup : Node)
    (h1 : findTag soup "h1" = none) (h2 : findTag soup "h2" = none) :
    resolveTitle none soup = .error nameErrorMsg := by
  simp [resolveTitle, pyOrN, h1, h2]

/-- Closed instance of `resolve_title_fallback_name_error` on a document
with no headings at all. -/
theorem resolve_title_fallback_name_error_witness :
    resolveTitle none (el "[document]" [el "p" [tx "x"]]) = .error nameErrorMsg :=
  resolve_title_fallback_name_error (el "[document]" [el "p" [tx "x"]]) rfl rfl

/-! ## C4: degradation on documents with no matching headings -/

def c4doc : Node := el "[document]" [el "h2" []]

/-- C4 (counterexample): `c4doc` contains no heading whose text strips to
`"Info"` and no level-2 heading whose direct text strips to
`"Registered Artist(s):"` (its only `h2` has no direct text at all), yet
`scrape_metadata` raises `AttributeError` — `header.find(text=True,
recursive=False)` returns `None` and `.strip()` is called on it — instead of
returning the all-`"Unknown"` result. -/
theorem scrape_empty_h2_raises_cex :
    scrape_metadata c4doc = .error attrErrorMsg ∧
    (elementsByTags c4doc infoTags).any isInfoHeader = false ∧
    (elementsByTags c4doc ["h2"]).any
      (fun c => (directText c.node).map pyStrip == some "Registered Artist(s):") = false :=
  ⟨rfl, rfl, rfl⟩

/-- C4 (amended): for every document with no `"Info"` heading in which
moreover every level-2 heading has a direct text node, and none of these
strips to `"Registered Artist(s):"`, `scrape_metadata` returns normally with
all six fields `"Unknown"`. -/
theorem scrape_no_match_all_unknown_amended (soup : Node)
    (hInfo : ∀ c ∈ elementsByTags soup infoTags, isInfoHeader c = false)
    (hArtist : ∀ c ∈ elementsByTags soup ["h2"],
      ∃ t, directText c.node = some t ∧ pyStrip t ≠ "Registered Artist(s):") :
    scrape_metadata soup = .ok unknownMeta := by
  have hfind : infoHeaderCtx soup = none := by
    unfold infoHeaderCtx
    exact List.find?_eq_none.mpr (fun c hc => by simp [hInfo c hc])
  have hm : infoMeta soup = unknownMeta := by
    unfold infoMeta infoSectionOf
    rw [hfind]
  have hart : artistFold soup = .ok none :=
    artistFold_nomatch _ none hArtist
  unfold scrape_metadata
  rw [hart, hm]

/-- Closed instance of `scrape_no_match_all_unknown_amended` on a document
whose level-2 heading has the direct text `"Other"`. -/
theorem scrape_no_match_all_unknown_amended_witness :
    scrape_metadata (el "[document]" [el "p" [tx "hello"], el "h2" [tx "Other"]]) =
      .ok unknownMeta := by
  refine scrape_no_match_all_unknown_amended _ (by decide) ?_
  intro c hc
  have : c = ⟨el "h2" [tx "Other"], [], [tx "Other"]⟩ := by
    simpa [elementsByTags, allCtxs, el, tx, nodesOf, ctxL, flattenL, NodeL.toList] using hc
  subst this
  exact ⟨"Other", rfl, by decide⟩

/-! ## C5: which artist heading wins -/

def c5doc : Node := el "[document]" [
  el "h2" [tx "Registered Artist(s):"],
  el "ul" [el "li" [tx "Alpha"]],
  el "h2" [tx "Registered Artist(s):"],
  el "ul" [el "li" [tx "Beta"]]]

/-- C5 (counterexample): in a document with two matching artist headings,
each followed by a sibling list (`["Alpha"]` and `["Beta"]`), the scraped
artist is `"Beta"`, from the LAST matching heading — the loop has no
`break` — not `"Alpha"` from the first as the claim states. -/
theorem scrape_artist_last_match_cex :
    scrape_metadata c5doc = .ok { unknownMeta with artist := "Beta" } ∧
    "Beta" ≠ "Alpha" :=
  ⟨rfl, by decide⟩

theorem ok_bind {ε α β : Type} (v : α) (f : α → Except ε β) :
    (Except.ok v >>= f) = f v := rfl

theorem getLast?_cons_ne_nil {α : Type} (a : α) {l : List α} (h : l ≠ []) :
    (a :: l).getLast? = l.getLast? := by
  cases l with
  | nil => exact absurd rfl h
  | cons b t => exact List.getLast?_cons_cons

/-- The artist value one level-2 heading contributes: for a heading whose
direct text strips to `"Registered Artist(s):"` and that has a next sibling
list, the list items' trimmed texts joined with `", "`; `none` otherwise. -/
def artistOfCtx (c : Ctx) : Option String :=
  match directText c.node with
  | none => none
  | some t =>
    if pyStrip t == "Registered Artist(s):" then
      (findSib c "ul").map fun ul =>
        String.intercalate ", " ((liOf ul).map fun li => pyStrip (getText li))
    else none

theorem applyInfoLine_artist (m : ScrapedMeta) (line : String) :
    (applyInfoLine m line).artist = m.artist := by
  unfold applyInfoLine
  repeat' split
  all_goals rfl

theorem foldl_applyInfoLine_artist :
    ∀ (lines : List String) (m : ScrapedMeta),
      (lines.foldl applyInfoLine m).artist = m.artist
  | [], _ => rfl
  | l :: t, m => by
    rw [List.foldl_cons, foldl_applyInfoLine_artist t _, applyInfoLine_artist]

/-- The info-section phase never writes the artist field. -/
theorem infoMeta_artist (soup : Node) : (infoMeta soup).artist = "Unknown" := by
  unfold infoMeta
  cases hs : infoSectionOf soup with
  | none => rfl
  | some sec =>
    show (if truthyNode sec = true then (infoLinesOf sec).foldl applyInfoLine unknownMeta
      else unknownMeta).artist = "Unknown"
    by_cases h : truthyNode sec = true
    · rw [if_pos h, foldl_applyInfoLine_artist]
      rfl
    · rw [if_neg h]
      rfl

/-- The artist loop computes, over headings that all have a direct text
node, the LAST contributed artist value — matching headings without a
sibling list (and non-matching ones) contribute nothing and leave the
accumulator. -/
theorem artistFold_char :
    ∀ (l : List Ctx) (acc : Option String),
      (∀ c ∈ l, ∃ t, directText c.node = some t) →
      List.foldlM artistStep acc l =
        .ok (match (l.filterMap artistOfCtx).getLast? with
          | some a => some a
          | none => acc)
  | [], _, _ => rfl
  | c :: t, acc, h => by
    obtain ⟨s, hs⟩ := h c (List.mem_cons_self c t)
    have ht := fun d hd => h d (List.mem_cons_of_mem c hd)
    rw [List.foldlM_cons]
    by_cases hm : (pyStrip s == "Registered Artist(s):") = true
    · cases hu : findSib c "ul" with
      | some ul =>
        have hstep : artistStep acc c = .ok (some (String.intercalate ", "
            ((liOf ul).map fun li => pyStrip (getText li)))) := by
          simp [artistStep, hs, hm, hu]
        have hfm : List.filterMap artistOfCtx (c :: t) =
            (String.intercalate ", " ((liOf ul).map fun li => pyStrip (getText li))) ::
              List.filterMap artistOfCtx t := by
          rw [List.filterMap_cons,
            show artistOfCtx c = some (String.intercalate ", "
              ((liOf ul).map fun li => pyStrip (getText li))) from by
                simp [artistOfCtx, hs, hm, hu]]
        rw [hstep, ok_bind, artistFold_char t _ ht, hfm]
        cases hft : (t.filterMap artistOfCtx).getLast? with
        | none =>
          have hnil : t.filterMap artistOfCtx = [] := List.getLast?_eq_none_iff.mp hft
          rw [hnil]
          rfl
        | some y =>
          have hne : t.filterMap artistOfCtx ≠ [] := by
            intro he
            rw [he] at hft
            exact Option.noConfusion hft
          rw [getLast?_cons_ne_nil _ hne, hft]
      | none =>
        have hstep : artistStep acc c = .ok acc := by
          simp [artistStep, hs, hm, hu]
        have hfm : List.filterMap artistOfCtx (c :: t) = List.filterMap artistOfCtx t := by
          rw [List.filterMap_cons,
            show artistOfCtx c = none from by simp [artistOfCtx, hs, hm, hu]]
        rw [hstep, ok_bind, artistFold_char t _ ht, hfm]
    · have hm2 : (pyStrip s == "Registered Artist(s):") = false := by
        simpa using hm
      have hstep : artistStep acc c = .ok acc := by
        simp [artistStep, hs, hm2]
      have hfm : List.filterMap artistOfCtx (c :: t) = List.filterMap artistOfCtx t := by
        rw [List.filterMap_cons,
          show artistOfCtx c = none from by simp [artistOfCtx, hs, hm2]]
      rw [hstep, ok_bind, artistFold_char t _ ht, hfm]

theorem directText_isSome_mem {l : List Ctx}
    (hall : l.all (fun c => (directText c.node).isSome) = true) :
    ∀ c ∈ l, ∃ t, directText c.node = some t := by
  intro c hc
  have hd := List.all_eq_true.mp hall c hc
  cases he : directText c.node with
  | some t => exact ⟨t, rfl⟩
  | none =>
    rw [he] at hd
    exact absurd hd (by simp)

/-- C5 (amended): for every document in which each level-2 heading has a
direct text node, the scraped artist field is the value contributed by the
LAST level-2 heading whose direct text strips to `"Registered Artist(s):"`
and that has a next sibling list element — its list items' trimmed texts
joined with `", "` — and `"Unknown"` when no heading contributes; matching
headings without a sibling list (the loop has no `break`) leave the earlier
value. -/
theorem scrape_artist_last_match_amended (soup : Node)
    (hdir : ∀ c ∈ elementsByTags soup ["h2"], ∃ t, directText c.node = some t) :
    scrape_metadata soup =
      .ok { infoMeta soup with artist :=
        (((elementsByTags soup ["h2"]).filterMap artistOfCtx).getLast?).getD "Unknown" } := by
  have hfold := artistFold_char (elementsByTags soup ["h2"]) none hdir
  cases hl : ((elementsByTags soup ["h2"]).filterMap artistOfCtx).getLast? with
  | none =>
    have hf2 : artistFold soup = .ok none := by
      unfold artistFold
      rw [hfold, hl]
    unfold scrape_metadata
    rw [hf2]
    show Except.ok (infoMeta soup) =
      .ok { infoMeta soup with artist := "Unknown" }
    rw [show ("Unknown" : String) = (infoMeta soup).artist from (infoMeta_artist soup).symm]
  | some a =>
    have hf2 : artistFold soup = .ok (some a) := by
      unfold artistFold
      rw [hfold, hl]
    unfold scrape_metadata
    rw [hf2]
    rfl

/-- Closed instance of `scrape_artist_last_match_amended` at `c5doc` (two
matching headings, each with a sibling list). -/
theorem scrape_artist_last_match_amended_witness :
    scrape_metadata c5doc =
      .ok { infoMeta c5doc with artist :=
        (((elementsByTags c5doc ["h2"]).filterMap artistOfCtx).getLast?).getD "Unknown" } :=
  scrape_artist_last_match_amended c5doc (directText_isSome_mem (by decide))

/-! ## C8: info-section extraction -/

def c8ulPre : Node := el "ul" [el "li" [tx "Mod Archive ID: 1234"],
  el "li" [tx "MD5: abcd1234"], el "li" [tx "Format: IT"], el "li" [tx "Channels: 8"],
  el "li" [tx "Genre: Chiptune"]]

def c8badDoc : Node := el "[document]" [el "h3" [tx "Info"], c8ulPre, el "h2" []]

/-- C8 (counterexample): `c8badDoc` has exactly the five labelled info lines
and no level-2 heading whose direct text strips to
`"Registered Artist(s):"` (its only `h2` is empty), yet `scrape_metadata`
raises `AttributeError` in the artist loop instead of returning the claimed
mapping. -/
theorem scrape_info_extraction_cex :
    infoSectionOf c8badDoc = some c8ulPre ∧
    infoLinesOf c8ulPre =
      ["Mod Archive ID: 1234", "MD5: abcd1234", "Format: IT", "Channels: 8",
        "Genre: Chiptune"] ∧
    (elementsByTags c8badDoc ["h2"]).any
      (fun c => (directText c.node).map pyStrip == some "Registered Artist(s):") = false ∧
    scrape_metadata c8badDoc = .error attrErrorMsg :=
  ⟨rfl, rfl, rfl, rfl⟩

/-- C8 (amended): a document whose info section's lines are the five
labelled lines, in which every level-2 heading has a direct text node and
none of these strips to `"Registered Artist(s):"` (as the counterexample
shows, a level-2 heading without a direct text node crashes the scrape),
yields exactly the claimed six-field result; moreover (conjuncts two and
three) within a line the FIRST label match in listed order wins — a line
containing both `"Format:"` and `"MD5:"` assigns `md5`, the earlier label in
the listed order, taking everything after the line's first colon, trimmed —
and a later line with the same label overwrites an earlier one. -/
theorem scrape_info_extraction (soup : Node) (sec : Node)
    (hsec : infoSectionOf soup = some sec)
    (htru : truthyNode sec = true)
    (hlines : infoLinesOf sec =
      ["Mod Archive ID: 1234", "MD5: abcd1234", "Format: IT", "Channels: 8", "Genre: Chiptune"])
    (hart : ∀ c ∈ elementsByTags soup ["h2"],
      ∃ t, directText c.node = some t ∧ pyStrip t ≠ "Registered Artist(s):") :
    scrape_metadata soup = .ok ⟨"1234", "abcd1234", "IT", "8", "Chiptune", "Unknown"⟩ ∧
    (∀ m : ScrapedMeta, applyInfoLine m "Format: A MD5: B" = { m with md5 := "A MD5: B" }) ∧
    (∀ m : ScrapedMeta, (["Genre: A", "Genre: B"].foldl applyInfoLine m).genre = "B") := by
  refine ⟨?_, fun m => rfl, fun m => rfl⟩
  have hm : infoMeta soup = ⟨"1234", "abcd1234", "IT", "8", "Chiptune", "Unknown"⟩ := by
    unfold infoMeta
    rw [hsec]
    show (if truthyNode sec = true then (infoLinesOf sec).foldl applyInfoLine unknownMeta
        else unknownMeta) = _
    rw [if_pos htru, hlines]
    rfl
  have hartfold : artistFold soup = .ok none :=
    artistFold_nomatch _ none hart
  unfold scrape_metadata
  rw [hartfold, hm]

def c8ul : Node := el "ul" [el "li" [tx "Mod Archive ID: 1234"], el "li" [tx "MD5: abcd1234"],
  el "li" [tx "Format: IT"], el "li" [tx "Channels: 8"], el "li" [tx "Genre: Chiptune"]]

def c8doc : Node := el "[document]" [el "h3" [tx "Info"], c8ul]

/-- Closed instance of `scrape_info_extraction` on a concrete document:
an `"Info"` heading followed by a sibling list with the five lines. -/
theorem scrape_info_extraction_witness :
    scrape_metadata c8doc = .ok ⟨"1234", "abcd1234", "IT", "8", "Chiptune", "Unknown"⟩ :=
  (scrape_info_extraction c8doc c8ul rfl rfl rfl
    (fun c hc => by
      rw [show elementsByTags c8doc ["h2"] = [] from rfl] at hc
      exact absurd hc (List.not_mem_nil c))).1

/-! ## The `csv` module

`ensure_csv_exists` writes with `csv.writer(f)` — the default dialect:
delimiter `,`, quote char `"`, minimal quoting, line terminator `"\r\n"`.
`update_metadata_csv` reads with `csv.DictReader(f, delimiter=';')` and
writes with `csv.DictWriter(f, fieldnames=..., delimiter=';')`.  We model
the writer and the reader's character-level scan, parameterised by the
delimiter. -/

/-- Minimal quoting: a field is quoted iff it contains the delimiter, the
quote character, or a line-terminator character. -/
def needsQuote (delim : Char) (f : String) : Bool :=
  f.data.any fun c => c == delim || c == '"' || c == '\r' || c == '\n'

/-- Double every quote character (the writer's escaping inside quotes). -/
def escq : List Char → List Char
  | [] => []
  | '"' :: rest => '"' :: '"' :: escq rest
  | c :: rest => c :: escq rest

def renderField (delim : Char) (f : String) : List Char :=
  if needsQuote delim f then '"' :: (escq f.data ++ ['"']) else f.data

def renderFieldsChars (delim : Char) : List String → List Char
  | [] => []
  | [f] => renderField delim f
  | f :: rest => renderField delim f ++ delim :: renderFieldsChars delim rest

/-- One written CSV record: the fields joined with the delimiter, terminated
by `"\r\n"`. -/
def renderRowChars (delim : Char) (fields : List String) : List Char :=
  renderFieldsChars delim fields ++ ['\r', '\n']

def renderRowsChars (delim : Char) : List (List String) → List Char
  | [] => []
  | r :: t => renderRowChars delim r ++ renderRowsChars delim t

/-- The file content produced by writing the given records. -/
def renderFileRows (delim : Char) (rows : List (List String)) : String :=
  ⟨renderRowsChars delim rows⟩

/-- Reader state within one field, mirroring the `_csv` scanner's states
`IN_FIELD`, `IN_QUOTED_FIELD` and `QUOTE_IN_QUOTED_FIELD`. -/
inductive CsvMode where
  | plain : CsvMode
  | quoted : CsvMode
  | closing : CsvMode

/-- Consume a `'\n'` that follows a `'\r'` (the reader treats `"\r\n"`,
`"\r"` and `"\n"` alike as end of record). -/
def dropLF (l : List Char) : List Char :=
  if l.head? == some '\n' then l.tail else l

/-- Scan one field from the given mode.  Returns the field's characters, a
flag telling whether the record ended (end of line or of input, rather than
a delimiter), and the remaining input.  A quote inside an unquoted field is
an ordinary character; after a closing quote a stray character re-enters the
unquoted mode (the reader's non-strict behaviour). -/
def parseFieldGo (delim : Char) : CsvMode → List Char → List Char × Bool × List Char
  | _, [] => ([], true, [])
  | .plain, c :: rest =>
    if c == delim then ([], false, rest)
    else if c == '\r' then ([], true, dropLF rest)
    else if c == '\n' then ([], true, rest)
    else
      let p := parseFieldGo delim .plain rest
      (c :: p.1, p.2.1, p.2.2)
  | .quoted, c :: rest =>
    if c == '"' then parseFieldGo delim .closing rest
    else
      let p := parseFieldGo delim .quoted rest
      (c :: p.1, p.2.1, p.2.2)
  | .closing, c :: rest =>
    if c == '"' then
      let p := parseFieldGo delim .quoted rest
      ('"' :: p.1, p.2.1, p.2.2)
    else if c == delim then ([], false, rest)
    else if c == '\r' then ([], true, dropLF rest)
    else if c == '\n' then ([], true, rest)
    else
      let p := parseFieldGo delim .plain rest
      (c :: p.1, p.2.1, p.2.2)

/-- Scan one field: quoted iff it starts with the quote character. -/
def parseField (delim : Char) (cs : List Char) : List Char × Bool × List Char :=
  if cs.head? == some '"' then parseFieldGo delim .quoted cs.tail
  else parseFieldGo delim .plain cs

/-- Scan one record (fuelled; each field consumes at least the delimiter or
terminator, so `cs.length` fuel always suffices). -/
def parseRowFuel (delim : Char) : Nat → List Char → List (List Char) × List Char
  | 0, cs => ([], cs)
  | fuel + 1, cs =>
    let p := parseField delim cs
    if p.2.1 then ([p.1], p.2.2)
    else
      let q := parseRowFuel delim fuel p.2.2
      (p.1 :: q.1, q.2)

def parseRowsFuel (delim : Char) : Nat → List Char → List (List (List Char))
  | 0, _ => []
  | fuel + 1, cs =>
    if cs.isEmpty then []
    else
      let p := parseRowFuel delim cs.length cs
      p.1 :: parseRowsFuel delim fuel p.2

/-- All records of a CSV file's content.  (On content this module itself
wrote, every record is nonempty, so the reader's skipping of fully blank
lines never comes into play.) -/
def parseRows (delim : Char) (cs : List Char) : List (List String) :=
  (parseRowsFuel delim (cs.length + 1) cs).map fun r => r.map fun f => (⟨f⟩ : String)

/-! ## The filesystem model and the Catalog Index -/

/-- A filesystem: paths mapped to file contents.  Writing prepends; reading
finds the most recent write. -/
abbrev FS := List (String × String)

def fsRead (fs : FS) (p : String) : Option String :=
  (fs.find? fun e => e.1 == p).map (·.2)

def fsWrite (fs : FS) (p c : String) : FS := (p, c) :: fs

def CSV_FILENAME : String := "modules_catalog.csv"

def csvFieldnames : List String :=
  ["ModArchiveID", "Name", "MD5", "Format", "Channels", "Genre", "Artist", "RelativePath"]

/-- `ensure_csv_exists` (src/modarchive_dl.py, lines 56-60): if the path does
not exist, create it and write the header row with `csv.writer(f)` — the
DEFAULT dialect, whose delimiter is `','`. -/
def ensure_csv_exists (fs : FS) (csv_path : String) : FS :=
  match fsRead fs csv_path with
  | some _ => fs
  | none => fsWrite fs csv_path (renderFileRows ',' [csvFieldnames])

/-- The record `update_metadata_csv` is called with: the eight fields of the
catalog schema. -/
structure Row where
  ModArchiveID : String
  Name : String
  MD5 : String
  Format : String
  Channels : String
  Genre : String
  Artist : String
  RelativePath : String
deriving DecidableEq

def rowFields (r : Row) : List String :=
  [r.ModArchiveID, r.Name, r.MD5, r.Format, r.Channels, r.Genre, r.Artist, r.RelativePath]

/-- A reader/writer row dictionary.  A value of `none` is Python's `None`
(the `restval` filled in for a short record).  Surplus fields of an
over-long record, which `DictReader` would stash under the key `None`, are
dropped: content written by this module always has exactly
`len(fieldnames)` fields per record. -/
abbrev Dict := List (String × Option String)

/-- `DictReader`'s row construction: `dict(zip(fieldnames, row))`, with
missing values filled with `None`. -/
def rowToDict (fnames : List String) (fields : List String) : Dict :=
  fnames.enum.map fun p => (p.2, fields[p.1]?)

def dictGet (d : Dict) (k : String) : Option (Option String) :=
  (d.find? fun e => e.1 == k).map (·.2)

/-- The dictionary literal `update_metadata_csv` receives from `main`. -/
def toDictR (r : Row) : Dict :=
  (csvFieldnames.zip (rowFields r)).map fun p => (p.1, some p.2)

/-- `DictWriter.writerow`: fields in `fieldnames` order, missing keys written
as the empty string (`restval=None` → `""`); a key outside `fieldnames`
raises `ValueError`. -/
def dictToList (fnames : List String) (d : Dict) : Except String (List String) :=
  if d.all (fun e => fnames.contains e.1) then
    .ok (fnames.map fun fn => ((dictGet d fn).getD none).getD "")
  else .error "ValueError: dict contains fields not in fieldnames"

/-- The body of the reading loop of `update_metadata_csv`: keep a row unless
its `ModArchiveID` equals the incoming record's (`row["ModArchiveID"]`
raises `KeyError` when the key is absent). -/
def keepStep (rid : String) (fnames : List String) (acc : List Dict)
    (fields : List String) : Except String (List Dict) :=
  let d := rowToDict fnames fields
  match dictGet d "ModArchiveID" with
  | none => .error "KeyError: ModArchiveID"
  | some v => .ok (if v == some rid then acc else acc ++ [d])

/-- Read the existing file with `csv.DictReader(f, delimiter=';')`,
retaining the rows whose key differs from `rid`.  The first record gives the
fieldnames; an empty file yields no rows. -/
def loadRows (content : String) (rid : String) : Except String (List Dict) :=
  match parseRows ';' content.data with
  | [] => .ok []
  | fnames :: dataRows => dataRows.foldlM (keepStep rid fnames) []

/-- The `if os.path.exists(csv_path): ... rows.append(row)` part: load the
retained rows when the file exists, none otherwise. -/
def readKept (fs1 : FS) (csv_path : String) (rid : String) :
    Except String (List Dict) :=
  match fsRead fs1 csv_path with
  | none => .ok []
  | some content => loadRows content rid

/-- The rewrite phase: append the incoming record and write header plus all
rows with `DictWriter(f, fieldnames=fieldnames, delimiter=';')`.  An error
from the loading phase (or a `ValueError` from the writer) aborts before the
file at `csv_path` is touched. -/
def writeBack (fs1 : FS) (csv_path : String) (new_row : Row)
    (loaded : Except String (List Dict)) : FS × Option String :=
  match loaded with
  | .error e => (fs1, some e)
  | .ok kept =>
    match (kept ++ [toDictR new_row]).mapM (dictToList csvFieldnames) with
    | .error e => (fs1, some e)
    | .ok lists =>
      (fsWrite fs1 csv_path (renderFileRows ';' (csvFieldnames :: lists)), none)

/-- `update_metadata_csv` (src/modarchive_dl.py, lines 65-86).  Returns the
resulting filesystem and `some errmsg` when the Python code would raise
(side effects before the raise — the `ensure_csv_exists` call, which targets
the global `CSV_FILENAME`, not `csv_path` — survive). -/
def update_metadata_csv (fs : FS) (csv_path : String) (new_row : Row) :
    FS × Option String :=
  writeBack (ensure_csv_exists fs CSV_FILENAME) csv_path new_row
    (readKept (ensure_csv_exists fs CSV_FILENAME) csv_path new_row.ModArchiveID)

/-- One call within a sequence of upserts (an unhandled exception would
abort the run, so the sequence stops at the first error). -/
def seqStep (csv_path : String) (st : FS × Option String) (r : Row) :
    FS × Option String :=
  match st.2 with
  | none => update_metadata_csv st.1 csv_path r
  | some e => (st.1, some e)

/-- A sequence of `update_metadata_csv` calls against one path. -/
def upsertSeq (fs : FS) (csv_path : String) (recs : List Row) : FS × Option String :=
  recs.foldl (seqStep csv_path) (fs, none)

/-- The pure row-level effect of one upsert: drop the rows with the incoming
key, append the incoming record. -/
def updRows (rows : List Row) (r : Row) : List Row :=
  rows.filter (fun x => !(x.ModArchiveID == r.ModArchiveID)) ++ [r]

/-- The rows present after a sequence of upserts into an initially absent
file. -/
def dedupRows (recs : List Row) : List Row := recs.foldl updRows []

/-! ### Read-after-write round trip of the csv layer -/

theorem clean_of_not_needsQuote {delim : Char} {f : String}
    (h : needsQuote delim f = false) :
    ∀ c ∈ f.data, c ≠ delim ∧ c ≠ '"' ∧ c ≠ '\r' ∧ c ≠ '\n' := by
  intro c hc
  unfold needsQuote at h
  rw [List.any_eq_false] at h
  have := h c hc
  simp at this
  exact ⟨this.1.1.1, this.1.1.2, this.1.2, this.2⟩

theorem parseFieldGo_plain (delim : Char) (hr : delim ≠ '\r') :
    ∀ (f rest : List Char),
      (∀ c ∈ f, c ≠ delim ∧ c ≠ '"' ∧ c ≠ '\r' ∧ c ≠ '\n') →
      parseFieldGo delim .plain (f ++ delim :: rest) = (f, false, rest) ∧
      parseFieldGo delim .plain (f ++ '\r' :: '\n' :: rest) = (f, true, rest)
  | [], rest, _ => by
    have hr2 : ¬('\r' = delim) := fun h => hr h.symm
    constructor
    · simp [parseFieldGo]
    · simp [parseFieldGo, hr2, dropLF]
  | c :: f, rest, h => by
    obtain ⟨h1, h2, h3, h4⟩ := h c (List.mem_cons_self c f)
    have ih := parseFieldGo_plain delim hr f rest
      (fun d hd => h d (List.mem_cons_of_mem c hd))
    constructor
    · show parseFieldGo delim .plain (c :: (f ++ delim :: rest)) = (c :: f, false, rest)
      simp [parseFieldGo, h1, h3, h4, ih.1]
    · show parseFieldGo delim .plain (c :: (f ++ '\r' :: '\n' :: rest)) = (c :: f, true, rest)
      simp [parseFieldGo, h1, h3, h4, ih.2]

theorem parseFieldGo_quoted (delim : Char) (hq : delim ≠ '"') (hr : delim ≠ '\r') :
    ∀ (f rest : List Char),
      parseFieldGo delim .quoted (escq f ++ '"' :: delim :: rest) = (f, false, rest) ∧
      parseFieldGo delim .quoted (escq f ++ '"' :: '\r' :: '\n' :: rest) = (f, true, rest)
  | [], rest => by
    have hq' : (delim == '"') = false := by simp [hq]
    have hr2 : ¬('\r' = delim) := fun h => hr h.symm
    have hr' : ('\r' == delim) = false := by simp [hr2]
    constructor
    · show parseFieldGo delim .quoted ('"' :: delim :: rest) = ([], false, rest)
      simp [parseFieldGo, hq']
    · show parseFieldGo delim .quoted ('"' :: '\r' :: '\n' :: rest) = ([], true, rest)
      simp [parseFieldGo, hr', dropLF]
  | c :: f, rest => by
    have ih := parseFieldGo_quoted delim hq hr f rest
    by_cases hc : c = '"'
    · subst hc
      constructor
      · show parseFieldGo delim .quoted ('"' :: '"' :: (escq f ++ '"' :: delim :: rest)) =
          ('"' :: f, false, rest)
        simp [parseFieldGo, ih.1]
      · show parseFieldGo delim .quoted ('"' :: '"' :: (escq f ++ '"' :: '\r' :: '\n' :: rest)) =
          ('"' :: f, true, rest)
        simp [parseFieldGo, ih.2]
    · have hesc : escq (c :: f) = c :: escq f := by
        simp [escq, hc]
      rw [hesc]
      constructor
      · show parseFieldGo delim .quoted (c :: (escq f ++ '"' :: delim :: rest)) =
          (c :: f, false, rest)
        simp [parseFieldGo, hc, ih.1]
      · show parseFieldGo delim .quoted (c :: (escq f ++ '"' :: '\r' :: '\n' :: rest)) =
          (c :: f, true, rest)
        simp [parseFieldGo, hc, ih.2]

theorem parseField_render (delim : Char) (hq : delim ≠ '"') (hr : delim ≠ '\r')
    (f : String) (rest : List Char) :
    parseField delim (renderField delim f ++ delim :: rest) = (f.data, false, rest) ∧
    parseField delim (renderField delim f ++ '\r' :: '\n' :: rest) = (f.data, true, rest) := by
  by_cases hnq : needsQuote delim f = true
  · unfold renderField
    rw [if_pos hnq]
    have hquot := parseFieldGo_quoted delim hq hr f.data rest
    constructor
    · show parseField delim ('"' :: ((escq f.data ++ ['"']) ++ delim :: rest)) = _
      rw [List.append_assoc, List.singleton_append]
      simp [parseField, hquot.1]
    · show parseField delim ('"' :: ((escq f.data ++ ['"']) ++ '\r' :: '\n' :: rest)) = _
      rw [List.append_assoc, List.singleton_append]
      simp [parseField, hquot.2]
  · have hnq' : needsQuote delim f = false := by simpa using hnq
    have hclean := clean_of_not_needsQuote hnq'
    unfold renderField
    rw [if_neg (by simp [hnq'])]
    have hplain := parseFieldGo_plain delim hr f.data rest hclean
    have hq2 : ¬(delim = '"') := hq
    have hhead : ∀ z : List Char, ((f.data ++ delim :: z).head? == some '"') = false := by
      intro z
      cases hfd : f.data with
      | nil => simp [hq2]
      | cons a t =>
        have := (hclean a (by rw [hfd]; exact List.mem_cons_self a t)).2.1
        simp [this]
    have hheadr : ∀ z : List Char, ((f.data ++ '\r' :: z).head? == some '"') = false := by
      intro z
      cases hfd : f.data with
      | nil => simp
      | cons a t =>
        have := (hclean a (by rw [hfd]; exact List.mem_cons_self a t)).2.1
        simp [this]
    constructor
    · unfold parseField
      rw [if_neg (by simp only [hhead rest]; simp)]
      exact hplain.1
    · unfold parseField
      rw [if_neg (by simp only [hheadr ('\n' :: rest)]; simp)]
      exact hplain.2

theorem renderFieldsChars_length (delim : Char) :
    ∀ fields : List String, fields.length ≤ (renderFieldsChars delim fields).length + 1
  | [] => by simp
  | [f] => by simp [renderFieldsChars]
  | f :: g :: t => by
    have ih := renderFieldsChars_length delim (g :: t)
    simp only [renderFieldsChars, List.length_append, List.length_cons] at ih ⊢
    omega

theorem parseRowFuel_render (delim : Char) (hq : delim ≠ '"') (hr : delim ≠ '\r') :
    ∀ (fields : List String) (fuel : Nat) (rest : List Char),
      fields ≠ [] → fields.length ≤ fuel →
      parseRowFuel delim fuel (renderFieldsChars delim fields ++ '\r' :: '\n' :: rest) =
        (fields.map String.data, rest)
  | [], _, _, hne, _ => absurd rfl hne
  | [f], fuel, rest, _, hfu => by
    have hfu1 : 1 ≤ fuel := by simpa using hfu
    obtain ⟨k, rfl⟩ : ∃ k, fuel = k + 1 := ⟨fuel - 1, by omega⟩
    have hfield := (parseField_render delim hq hr f rest).2
    show parseRowFuel delim (k + 1) (renderField delim f ++ '\r' :: '\n' :: rest) = _
    simp [parseRowFuel, hfield]
  | f :: g :: t, fuel, rest, _, hfu => by
    have hfu1 : 2 ≤ fuel := by
      simp only [List.length_cons] at hfu
      omega
    obtain ⟨k, rfl⟩ : ∃ k, fuel = k + 1 := ⟨fuel - 1, by omega⟩
    have hfield :=
      (parseField_render delim hq hr f (renderFieldsChars delim (g :: t) ++ '\r' :: '\n' :: rest)).1
    have ih := parseRowFuel_render delim hq hr (g :: t) k rest (by simp) (by
      simp only [List.length_cons] at hfu ⊢
      omega)
    show parseRowFuel delim (k + 1)
        ((renderField delim f ++ delim :: renderFieldsChars delim (g :: t)) ++
          '\r' :: '\n' :: rest) = _
    rw [List.append_assoc, List.cons_append]
    simp [parseRowFuel, hfield, ih]

theorem renderRowsChars_length (delim : Char) :
    ∀ rows : List (List String), rows.length ≤ (renderRowsChars delim rows).length
  | [] => by simp [renderRowsChars]
  | r :: t => by
    have ih := renderRowsChars_length delim t
    simp only [renderRowsChars, renderRowChars, List.length_append, List.length_cons] at *
    omega

theorem parseRowsFuel_render (delim : Char) (hq : delim ≠ '"') (hr : delim ≠ '\r') :
    ∀ (rows : List (List String)) (fuel : Nat),
      (∀ r ∈ rows, r ≠ []) → rows.length < fuel →
      parseRowsFuel delim fuel (renderRowsChars delim rows) =
        rows.map (fun r => r.map String.data)
  | [], fuel, _, hfu => by
    obtain ⟨k, rfl⟩ : ∃ k, fuel = k + 1 := ⟨fuel - 1, by omega⟩
    simp [parseRowsFuel, renderRowsChars]
  | r :: t, fuel, h, hfu => by
    obtain ⟨k, rfl⟩ : ∃ k, fuel = k + 1 := ⟨fuel - 1, by omega⟩
    have hne : renderRowChars delim r ++ renderRowsChars delim t ≠ [] := by
      simp [renderRowChars]
    have hlen : r.length ≤ (renderRowChars delim r ++ renderRowsChars delim t).length := by
      have h1 := renderFieldsChars_length delim r
      simp only [renderRowChars, List.length_append, List.length_cons]
      simp only [List.length_append] at h1 ⊢
      omega
    have hrow := parseRowFuel_render delim hq hr r
      ((renderRowChars delim r ++ renderRowsChars delim t).length)
      (renderRowsChars delim t) (h r (List.mem_cons_self r t)) hlen
    have ih := parseRowsFuel_render delim hq hr t k
      (fun x hx => h x (List.mem_cons_of_mem r hx)) (by
        simp only [List.length_cons] at hfu
        omega)
    show parseRowsFuel delim (k + 1) (renderRowChars delim r ++ renderRowsChars delim t) = _
    rw [parseRowsFuel]
    rw [if_neg (by simp [hne])]
    have harg : renderRowChars delim r ++ renderRowsChars delim t =
        renderFieldsChars delim r ++ '\r' :: '\n' :: renderRowsChars delim t := by
      simp [renderRowChars]
    rw [show parseRowFuel delim (renderRowChars delim r ++ renderRowsChars delim t).length
          (renderRowChars delim r ++ renderRowsChars delim t) =
        (r.map String.data, renderRowsChars delim t) from by rw [harg] at hrow ⊢; exact hrow]
    simp [ih]

theorem map_mk_map_data (r : List String) :
    (r.map String.data).map (fun f => (⟨f⟩ : String)) = r := by
  induction r with
  | nil => rfl
  | cons a t ih => simp only [List.map_cons, ih]

/-- The central csv round trip: reading back content this module wrote
recovers exactly the written records. -/
theorem parseRows_render (delim : Char) (hq : delim ≠ '"') (hr : delim ≠ '\r')
    (rows : List (List String)) (h : ∀ r ∈ rows, r ≠ []) :
    parseRows delim (renderFileRows delim rows).data = rows := by
  unfold parseRows renderFileRows
  have hlen : rows.length < (renderRowsChars delim rows).length + 1 := by
    have := renderRowsChars_length delim rows
    omega
  rw [show ((⟨renderRowsChars delim rows⟩ : String).data) = renderRowsChars delim rows from rfl]
  rw [parseRowsFuel_render delim hq hr rows _ h hlen]
  rw [List.map_map]
  conv_rhs => rw [← List.map_id rows]
  refine List.map_congr_left (fun r hr2 => ?_)
  simp only [Function.comp_apply, id_eq]
  exact map_mk_map_data r

/-! ### Filesystem lemmas -/

theorem fsRead_write_same (fs : FS) (p c : String) :
    fsRead (fsWrite fs p c) p = some c := by
  simp [fsRead, fsWrite]

theorem fsRead_write_other (fs : FS) {p q : String} (h : q ≠ p) (c : String) :
    fsRead (fsWrite fs p c) q = fsRead fs q := by
  have hpq : (p == q) = false := by
    simp [Ne.symm h]
  simp [fsRead, fsWrite, List.find?_cons_of_neg, hpq]

theorem fsRead_ensure_of_some {fs : FS} {p x : String} (q : String)
    (h : fsRead fs p = some x) : fsRead (ensure_csv_exists fs q) p = some x := by
  unfold ensure_csv_exists
  cases hq : fsRead fs q with
  | some _ => exact h
  | none =>
    have hpq : p ≠ q := by
      intro e
      subst e
      rw [h] at hq
      exact Option.noConfusion hq
    rw [fsRead_write_other _ hpq _]
    exact h

theorem fsRead_ensure_other {fs : FS} {p q : String} (h : p ≠ q) :
    fsRead (ensure_csv_exists fs q) p = fsRead fs p := by
  unfold ensure_csv_exists
  cases hq : fsRead fs q with
  | some _ => rfl
  | none => exact fsRead_write_other _ h _

/-! ### The row-level effect of one upsert -/

theorem rowFields_ne_nil (r : Row) : rowFields r ≠ [] := by
  simp [rowFields]

theorem keepStep_fold (rid : String) :
    ∀ (xs : List Row) (acc : List Dict),
      (xs.map rowFields).foldlM (keepStep rid csvFieldnames) acc =
        .ok (acc ++ (xs.filter fun x => !(x.ModArchiveID == rid)).map toDictR)
  | [], acc => by
    simp only [List.map_nil, List.foldlM_nil, List.filter_nil, List.append_nil]
    rfl
  | x :: t, acc => by
    rw [List.map_cons, List.foldlM_cons,
      show keepStep rid csvFieldnames acc (rowFields x) =
        .ok (if x.ModArchiveID == rid then acc else acc ++ [toDictR x]) from rfl,
      ok_bind, keepStep_fold rid t _]
    cases hx : x.ModArchiveID == rid with
    | false => simp [List.filter_cons, hx]
    | true => simp [List.filter_cons, hx]

theorem mapM_dictToList :
    ∀ xs : List Row,
      (xs.map toDictR).mapM (dictToList csvFieldnames) = .ok (xs.map rowFields)
  | [] => rfl
  | x :: t => by
    rw [List.map_cons, List.mapM_cons,
      show dictToList csvFieldnames (toDictR x) = .ok (rowFields x) from rfl,
      ok_bind, mapM_dictToList t, ok_bind]
    rfl

theorem loadRows_render (rows : List Row) (rid : String) :
    loadRows (renderFileRows ';' (csvFieldnames :: rows.map rowFields)) rid =
      .ok ((rows.filter fun x => !(x.ModArchiveID == rid)).map toDictR) := by
  unfold loadRows
  have hparse : parseRows ';' (renderFileRows ';' (csvFieldnames :: rows.map rowFields)).data =
      csvFieldnames :: rows.map rowFields := by
    refine parseRows_render ';' (by decide) (by decide) _ ?_
    intro r hrr
    rcases List.mem_cons.mp hrr with h | h
    · subst h
      simp [csvFieldnames]
    · obtain ⟨x, _, rfl⟩ := List.mem_map.mp h
      exact rowFields_ne_nil x
  rw [hparse]
  exact keepStep_fold rid rows []

/-- `writeBack` on successfully loaded rows: write header plus rows plus the
incoming record. -/
theorem writeBack_rows (fs1 : FS) (path : String) (r : Row) (xs : List Row) :
    writeBack fs1 path r (.ok (xs.map toDictR)) =
      (fsWrite fs1 path
        (renderFileRows ';' (csvFieldnames :: (xs ++ [r]).map rowFields)), none) := by
  show (match ((xs.map toDictR) ++ [toDictR r]).mapM (dictToList csvFieldnames) with
    | Except.error e => (fs1, some e)
    | Except.ok lists =>
      (fsWrite fs1 path (renderFileRows ';' (csvFieldnames :: lists)), none)) = _
  rw [show (xs.map toDictR) ++ [toDictR r] = (xs ++ [r]).map toDictR from
      (List.map_append toDictR xs [r]).symm,
    mapM_dictToList]

/-- One upsert against a file holding header plus rows: always succeeds and
rewrites the file with the incoming record upserted by key. -/
theorem upd_step (fs : FS) (path : String) (rows : List Row) (r : Row)
    (hread : fsRead fs path =
      some (renderFileRows ';' (csvFieldnames :: rows.map rowFields))) :
    update_metadata_csv fs path r =
      (fsWrite (ensure_csv_exists fs CSV_FILENAME) path
        (renderFileRows ';' (csvFieldnames :: (updRows rows r).map rowFields)), none) := by
  have hread1 := fsRead_ensure_of_some CSV_FILENAME hread
  have hkept : readKept (ensure_csv_exists fs CSV_FILENAME) path r.ModArchiveID =
      .ok ((rows.filter fun x => !(x.ModArchiveID == r.ModArchiveID)).map toDictR) := by
    unfold readKept
    rw [hread1]
    exact loadRows_render rows r.ModArchiveID
  unfold update_metadata_csv
  rw [hkept, writeBack_rows]
  rfl

/-- One upsert against an absent file: the file is created holding header
plus the single incoming record (when `path` is the catalog file itself, the
comma-delimited header `ensure_csv_exists` just wrote parses as a single
alien fieldname and contributes no rows). -/
theorem upd_base (fs : FS) (path : String) (r : Row)
    (hnone : fsRead fs path = none) :
    update_metadata_csv fs path r =
      (fsWrite (ensure_csv_exists fs CSV_FILENAME) path
        (renderFileRows ';' (csvFieldnames :: [rowFields r])), none) := by
  have hkept : readKept (ensure_csv_exists fs CSV_FILENAME) path r.ModArchiveID =
      .ok [] := by
    by_cases hp : path = CSV_FILENAME
    · subst hp
      cases hcsv : fsRead fs CSV_FILENAME with
      | some c =>
        rw [hcsv] at hnone
        exact Option.noConfusion hnone
      | none =>
        have he : ensure_csv_exists fs CSV_FILENAME =
            fsWrite fs CSV_FILENAME (renderFileRows ',' [csvFieldnames]) := by
          unfold ensure_csv_exists
          rw [hcsv]
        unfold readKept
        rw [he, fsRead_write_same]
        rfl
    · unfold readKept
      rw [fsRead_ensure_other hp, hnone]
  unfold update_metadata_csv
  rw [hkept]
  exact writeBack_rows (ensure_csv_exists fs CSV_FILENAME) path r []

/-- Folding a sequence of upserts over a well-formed file: every call
succeeds and the final file holds header plus the rows upserted in order. -/
theorem upsertSeq_fold :
    ∀ (recs : List Row) (fs : FS) (path : String) (rows : List Row),
      fsRead fs path = some (renderFileRows ';' (csvFieldnames :: rows.map rowFields)) →
      ∃ fs2,
        recs.foldl (seqStep path) (fs, none) = (fs2, none) ∧
        fsRead fs2 path =
          some (renderFileRows ';'
            (csvFieldnames :: (recs.foldl updRows rows).map rowFields))
  | [], fs, _, rows, h => ⟨fs, rfl, h⟩
  | r :: t, fs, path, rows, h => by
    have hstep := upd_step fs path rows r h
    have hbody : seqStep path (fs, none) r = update_metadata_csv fs path r := rfl
    rw [List.foldl_cons, hbody, hstep]
    have hread2 : fsRead
        (fsWrite (ensure_csv_exists fs CSV_FILENAME) path
          (renderFileRows ';' (csvFieldnames :: (updRows rows r).map rowFields))) path =
        some (renderFileRows ';' (csvFieldnames :: (updRows rows r).map rowFields)) :=
      fsRead_write_same _ _ _
    obtain ⟨fs2, hfold, hr2⟩ := upsertSeq_fold t _ path (updRows rows r) hread2
    exact ⟨fs2, hfold, by rw [List.foldl_cons]; exact hr2⟩

/-! ### The pure dedup characterisation -/

/-- After folding upserts, the rows carrying key `k` are exactly the last
record with that key (or whatever the accumulator held, when no record
carries it). -/
theorem foldl_updRows_filter :
    ∀ (recs : List Row) (acc : List Row) (k : String),
      (recs.foldl updRows acc).filter (fun r => r.ModArchiveID == k) =
        (match (recs.filter (fun r => r.ModArchiveID == k)).getLast? with
          | some x => [x]
          | none => acc.filter (fun r => r.ModArchiveID == k))
  | [], acc, k => by simp
  | r :: t, acc, k => by
    rw [List.foldl_cons, foldl_updRows_filter t (updRows acc r) k, List.filter_cons]
    cases hr : r.ModArchiveID == k with
    | true =>
      have hrk : r.ModArchiveID = k := by simpa using hr
      have hacc : (updRows acc r).filter (fun x => x.ModArchiveID == k) = [r] := by
        unfold updRows
        rw [List.filter_append]
        have h1 : (acc.filter fun x => !(x.ModArchiveID == r.ModArchiveID)).filter
            (fun x => x.ModArchiveID == k) = [] := by
          rw [List.filter_eq_nil_iff]
          intro x hx
          have hx1 := List.of_mem_filter hx
          have hx2 : x.ModArchiveID ≠ r.ModArchiveID := by simpa using hx1
          simp [hrk ▸ hx2]
        rw [h1]
        simp [hr]
      rw [if_pos rfl]
      cases hft : (t.filter fun x => x.ModArchiveID == k).getLast? with
      | none =>
        have : t.filter (fun x => x.ModArchiveID == k) = [] := by
          cases hfe : t.filter fun x => x.ModArchiveID == k with
          | nil => rfl
          | cons y ys =>
            rw [hfe] at hft
            rcases List.getLast?_eq_none_iff.mp hft with h
            exact h
        rw [this, hacc]
        simp [getLast?_cons_ne_nil]
      | some y =>
        have hne : t.filter (fun x => x.ModArchiveID == k) ≠ [] := by
          intro he
          rw [he] at hft
          exact Option.noConfusion hft
        rw [getLast?_cons_ne_nil r hne, hft]
    | false =>
      rw [if_neg (by simp [hr])]
      cases hft : (t.filter fun x => x.ModArchiveID == k).getLast? with
      | none =>
        have hacc : (updRows acc r).filter (fun x => x.ModArchiveID == k) =
            acc.filter (fun x => x.ModArchiveID == k) := by
          unfold updRows
          rw [List.filter_append]
          have h2 : ([r].filter fun x => x.ModArchiveID == k) = [] := by
            simp [hr]
          rw [h2, List.append_nil, List.filter_comm]
          refine List.filter_eq_self.mpr (fun x hx => ?_)
          have hx1 : x.ModArchiveID = k := by simpa using List.of_mem_filter hx
          have hrk : r.ModArchiveID ≠ k := by simpa using hr
          simp
          intro he
          exact hrk (he ▸ hx1)
        rw [hacc]
      | some y => rfl

/-! ## C1: what `ensure_csv_exists` writes -/

def sampleRow : Row := ⟨"1", "Song", "md5a", "IT", "8", "Chiptune", "Someone", "./x.it"⟩

/-- C1 (code bug): creating the csv goes through `csv.writer(f)` with the
DEFAULT dialect, so the header `ensure_csv_exists` writes is COMMA-delimited
(`"ModArchiveID,Name,..."`), not the semicolon-delimited header the claim
and the rest of the module (which reads and writes with `delimiter=';'`)
expect.  The file does hold only that one header line and no data rows. -/
theorem ensure_csv_header_comma_delimited :
    fsRead (update_metadata_csv [] "other.csv" sampleRow).1 CSV_FILENAME =
      some "ModArchiveID,Name,MD5,Format,Channels,Genre,Artist,RelativePath\r\n" ∧
    fsRead (ensure_csv_exists [] "any.csv") "any.csv" =
      some "ModArchiveID,Name,MD5,Format,Channels,Genre,Artist,RelativePath\r\n" ∧
    "ModArchiveID,Name,MD5,Format,Channels,Genre,Artist,RelativePath" ≠
      "ModArchiveID;Name;MD5;Format;Channels;Genre;Artist;RelativePath" :=
  ⟨rfl, rfl, by decide⟩

/-! ## C9: upsert touches the fixed catalog file -/

theorem writeBack_fst (fs1 : FS) (path : String) (r : Row)
    (loaded : Except String (List Dict)) :
    (writeBack fs1 path r loaded).1 = fs1 ∨
    ∃ c, (writeBack fs1 path r loaded).1 = fsWrite fs1 path c := by
  cases loaded with
  | error e => exact Or.inl rfl
  | ok kept =>
    cases hm : (kept ++ [toDictR r]).mapM (dictToList csvFieldnames) with
    | error e =>
      refine Or.inl ?_
      show (match (kept ++ [toDictR r]).mapM (dictToList csvFieldnames) with
        | Except.error e => (fs1, some e)
        | Except.ok lists =>
          (fsWrite fs1 path (renderFileRows ';' (csvFieldnames :: lists)), none)).1 = fs1
      rw [hm]
    | ok lists =>
      refine Or.inr ⟨renderFileRows ';' (csvFieldnames :: lists), ?_⟩
      show (match (kept ++ [toDictR r]).mapM (dictToList csvFieldnames) with
        | Except.error e => (fs1, some e)
        | Except.ok lists =>
          (fsWrite fs1 path (renderFileRows ';' (csvFieldnames :: lists)), none)).1 =
        fsWrite fs1 path (renderFileRows ';' (csvFieldnames :: lists))
      rw [hm]

/-- C9: every `update_metadata_csv` call, whatever its `csv_path` argument,
first runs `ensure_csv_exists(CSV_FILENAME)`: if the fixed-name catalog file
is absent it is created, holding exactly one header row — a file other than
the one named by the parameter. -/
theorem update_touches_catalog_file (fs : FS) (path : String) (r : Row)
    (habs : fsRead fs CSV_FILENAME = none) (hne : path ≠ CSV_FILENAME) :
    fsRead (update_metadata_csv fs path r).1 CSV_FILENAME =
      some (renderFileRows ',' [csvFieldnames]) ∧
    parseRows ',' (renderFileRows ',' [csvFieldnames]).data = [csvFieldnames] := by
  refine ⟨?_, by rfl⟩
  have h2 : fsRead (ensure_csv_exists fs CSV_FILENAME) CSV_FILENAME =
      some (renderFileRows ',' [csvFieldnames]) := by
    unfold ensure_csv_exists
    rw [habs]
    exact fsRead_write_same _ _ _
  have hwf := writeBack_fst (ensure_csv_exists fs CSV_FILENAME) path r
    (readKept (ensure_csv_exists fs CSV_FILENAME) path r.ModArchiveID)
  unfold update_metadata_csv
  rcases hwf with h | ⟨c, h⟩
  · rw [h]
    exact h2
  · rw [h, fsRead_write_other _ (Ne.symm hne) _]
    exact h2

/-- Closed instance of `update_touches_catalog_file`. -/
theorem update_touches_catalog_file_witness :
    fsRead (update_metadata_csv [] "a.csv" sampleRow).1 CSV_FILENAME =
      some (renderFileRows ',' [csvFieldnames]) :=
  (update_touches_catalog_file [] "a.csv" sampleRow rfl (by decide)).1

/-! ## C6 and C7: the upsert guarantee -/

/-- C6: starting from an absent file, after any nonempty sequence of upserts
every call has succeeded and the file holds the header row plus exactly the
deduplicated rows; for every key `k` the rows carrying `k` are exactly the
LAST record passed with that key (so: exactly one row per distinct
ModArchiveID ever passed, the most recent write for it, and none other). -/
theorem upsert_seq_unique_key (fs : FS) (path : String) (recs : List Row)
    (habs : fsRead fs path = none) (hne : recs ≠ []) :
    (upsertSeq fs path recs).2 = none ∧
    fsRead (upsertSeq fs path recs).1 path =
      some (renderFileRows ';' (csvFieldnames :: (dedupRows recs).map rowFields)) ∧
    ∀ k : String,
      (dedupRows recs).filter (fun r => r.ModArchiveID == k) =
        ((recs.filter (fun r => r.ModArchiveID == k)).getLast?).toList := by
  obtain ⟨r0, rest, rfl⟩ : ∃ r0 rest, recs = r0 :: rest := by
    cases recs with
    | nil => exact absurd rfl hne
    | cons a t => exact ⟨a, t, rfl⟩
  have hbase := upd_base fs path r0 habs
  have hread1 : fsRead (fsWrite (ensure_csv_exists fs CSV_FILENAME) path
      (renderFileRows ';' (csvFieldnames :: [rowFields r0]))) path =
      some (renderFileRows ';' (csvFieldnames :: ([r0] : List Row).map rowFields)) :=
    fsRead_write_same _ _ _
  obtain ⟨fs2, hfold, hread2⟩ := upsertSeq_fold rest _ path [r0] hread1
  have hseq : upsertSeq fs path (r0 :: rest) = (fs2, none) := by
    unfold upsertSeq
    rw [List.foldl_cons,
      show seqStep path (fs, none) r0 = update_metadata_csv fs path r0 from rfl, hbase]
    exact hfold
  refine ⟨by rw [hseq], ?_, ?_⟩
  · rw [hseq]
    rw [show dedupRows (r0 :: rest) = rest.foldl updRows [r0] from by
      unfold dedupRows
      rw [List.foldl_cons]
      rfl]
    exact hread2
  · intro k
    have hfl := foldl_updRows_filter (r0 :: rest) [] k
    rw [show dedupRows (r0 :: rest) = (r0 :: rest).foldl updRows [] from rfl, hfl]
    cases hft : ((r0 :: rest).filter fun r => r.ModArchiveID == k).getLast? with
    | none => simp
    | some x => simp

def sampleRow2 : Row := ⟨"1", "Song2", "md5b", "XM", "4", "Pop", "Other", "./y.xm"⟩

/-- Closed instance of `upsert_seq_unique_key`: upserting two records with
the same ModArchiveID `"1"` leaves exactly the header and the second
record. -/
theorem upsert_seq_unique_key_witness :
    (upsertSeq [] "m.csv" [sampleRow, sampleRow2]).2 = none ∧
    fsRead (upsertSeq [] "m.csv" [sampleRow, sampleRow2]).1 "m.csv" =
      some (renderFileRows ';'
        (csvFieldnames :: (dedupRows [sampleRow, sampleRow2]).map rowFields)) ∧
    (dedupRows [sampleRow, sampleRow2]).filter (fun r => r.ModArchiveID == "1") =
      (([sampleRow, sampleRow2].filter
        (fun r => r.ModArchiveID == "1")).getLast?).toList := by
  have h := upsert_seq_unique_key [] "m.csv" [sampleRow, sampleRow2] rfl (by decide)
  exact ⟨h.1, h.2.1, h.2.2 "1"⟩

def sampleV1 : Row := ⟨"5", "First", "md5a", "IT", "8", "Chiptune", "A", "./a.it"⟩
def sampleV2 : Row := ⟨"5", "Second", "md5b", "XM", "4", "Pop", "B", "./b.xm"⟩

/-- C7: two successive upserts of records sharing ModArchiveID `"5"` into an
initially absent file leave exactly one data row — `v2`'s fields (last write
wins). -/
theorem upsert_overwrite_last_write_wins (fs : FS) (path : String) (v1 v2 : Row)
    (h1 : v1.ModArchiveID = "5") (h2 : v2.ModArchiveID = "5")
    (habs : fsRead fs path = none) :
    (update_metadata_csv fs path v1).2 = none ∧
    (update_metadata_csv (update_metadata_csv fs path v1).1 path v2).2 = none ∧
    fsRead (update_metadata_csv (update_metadata_csv fs path v1).1 path v2).1 path =
      some (renderFileRows ';' [csvFieldnames, rowFields v2]) := by
  have hb := upd_base fs path v1 habs
  have hread1 : fsRead (update_metadata_csv fs path v1).1 path =
      some (renderFileRows ';' (csvFieldnames :: ([v1] : List Row).map rowFields)) := by
    rw [hb]
    exact fsRead_write_same _ _ _
  have hs := upd_step (update_metadata_csv fs path v1).1 path [v1] v2 hread1
  have hupd : updRows [v1] v2 = [v2] := by
    unfold updRows
    have hbeq : (v1.ModArchiveID == v2.ModArchiveID) = true := by
      rw [h1, h2]
      rfl
    simp [List.filter_cons, hbeq]
  refine ⟨by rw [hb], by rw [hs], ?_⟩
  rw [hs, hupd]
  exact fsRead_write_same _ _ _

/-- Closed instance of `upsert_overwrite_last_write_wins`. -/
theorem upsert_overwrite_last_write_wins_witness :
    fsRead (update_metadata_csv
        (update_metadata_csv [] "m2.csv" sampleV1).1 "m2.csv" sampleV2).1 "m2.csv" =
      some (renderFileRows ';' [csvFieldnames, rowFields sampleV2]) :=
  (upsert_overwrite_last_write_wins [] "m2.csv" sampleV1 sampleV2 rfl rfl rfl).2.2

end ModarchiveDl
